import Mathlib

/-!
# Verification of `pymatgen/symmetry/finder.py` against its specification

This file gives a shallow embedding of the symmetry-finder module
(`SymmetryFinder` and its cell-standardization logic) and settles the
specification's claims about it.

Conventions used throughout:

* Real-valued numeric data of the source is modelled over `ℚ` wherever every
  branch condition of the source is equivalent to an exact rational test
  (dot products, squared lengths), and over `ℝ` where trigonometry is
  genuinely needed (the triclinic closed-form construction).
* A lattice is a 3×3 matrix whose *rows* are the basis vectors, as in
  `pymatgen.core.lattice.Lattice` (`struct.lattice.matrix[i]` is row `i`).
* Fallible Python code (exceptions such as `UnboundLocalError`, or passing
  `None` where an object is required) is modelled with `Except`/`Option`.
-/

set_option maxHeartbeats 1000000
set_option maxRecDepth 4000

namespace Finder

/-! ## Scalars, vectors, matrices -/

abbrev Vec3 : Type := Fin 3 → ℚ

abbrev Mat3 : Type := Matrix (Fin 3) (Fin 3) ℚ

/-- Dot product of two rational 3-vectors. -/
def dot3 (u v : Vec3) : ℚ := u 0 * v 0 + u 1 * v 1 + u 2 * v 2

/-- Squared Euclidean length of a rational 3-vector.  The source works with
the length itself (`struct.lattice.abc[i]`); all comparisons between lengths
of lattice rows are equivalent to the same comparisons between squared
lengths, because lengths are non-negative. -/
def lenSq (u : Vec3) : ℚ := dot3 u u

/-! ## `get_crystal_system` and `get_lattice_type` (finder.py lines 142-183) -/

/-- The fixed inclusive-range table of `get_crystal_system`
(finder.py lines 153-156).  The Python source iterates a `dict`; the ranges
are pairwise disjoint, so the (unspecified) iteration order is immaterial
and a fixed list is a faithful model. -/
def crystalSystems : List (String × ℕ × ℕ) :=
  [("triclinic", 1, 2), ("monoclinic", 3, 15), ("orthorhombic", 16, 74),
   ("tetragonal", 75, 142), ("trigonal", 143, 167), ("hexagonal", 168, 194),
   ("cubic", 195, 230)]

/-- `SymmetryFinder.get_crystal_system` (finder.py lines 142-164): scan the
range table, return the first label whose inclusive range contains the
space-group number `n`; `None` (here `none`) when no range matches. -/
def get_crystal_system (n : ℕ) : Option String :=
  (crystalSystems.find? (fun t => decide (t.2.1 ≤ n ∧ n ≤ t.2.2))).map (·.1)

/-- The rhombohedral space-group numbers tested by `get_lattice_type`
(finder.py line 178). -/
def rhombohedralNumbers : List ℕ := [146, 148, 155, 160, 161, 166, 167]

/-- `SymmetryFinder.get_lattice_type` (finder.py lines 166-183). -/
def get_lattice_type (n : ℕ) : Option String :=
  let system := get_crystal_system n
  if n ∈ rhombohedralNumbers then some "rhombohedral"
  else if system = some "trigonal" then some "hexagonal"
  else system

/-! ## Structures

A light domain model: a structure is a (row-vector) lattice matrix together
with a site list; a site is a species code paired with fractional
coordinates.  Species are modelled by a type with decidable equality
(`pymatgen` species-and-occupancy compare by equality); concrete instances
use `ℕ` codes. -/

structure PyStructure where
  latt : Mat3
  sites : List (ℕ × Vec3)
deriving DecidableEq

/-! ## GeometryAdapter: species grouping and oracle-input conversion
(`SymmetryFinder.__init__`, finder.py lines 57-93) -/

variable {S : Type} [DecidableEq S]

/-- Helper for `groupbyRuns`: accumulate the current run of the key `k`
(seen `n` times so far) while scanning the remaining list. -/
def runsAux (k : S) (n : ℕ) : List S → List (S × ℕ)
  | [] => [(k, n)]
  | s :: rest => if s = k then runsAux k (n + 1) rest else (k, n) :: runsAux s 1 rest

/-- `itertools.groupby(structure, key=...)` (finder.py line 80): the list of
consecutive runs, each as (key, run length).  The source consumes each group
iterator exactly once (`len(tuple(g))`), so only the key and the length of
each run matter. -/
def groupbyRuns : List S → List (S × ℕ)
  | [] => []
  | s :: rest => runsAux s 1 rest

/-- Python's `list.index`: the position of the first occurrence, or
`ValueError` (modelled as `none`) when absent. -/
def pyIndex : List S → S → Option ℕ
  | [], _ => none
  | x :: xs, s => if x = s then some 0 else (pyIndex xs s).map (· + 1)

/-- Position of the first occurrence of `s` in the list (unspecified — here
0 — when absent; it is only ever used under a membership hypothesis). -/
def idxOf : List S → S → ℕ
  | [], _ => 0
  | x :: xs, s => if x = s then 0 else idxOf xs s + 1

/-- Expand a run list back into the flat list it was grouped from. -/
def flattenRuns : List (S × ℕ) → List S
  | [] => []
  | r :: rs => List.replicate r.2 r.1 ++ flattenRuns rs

/-- The loop body of `SymmetryFinder.__init__` (finder.py lines 80-87): for
each run, `unique_species.index(species)` either finds the first previous
occurrence (`try` branch, extending `zs` with `ind + 1`) or raises
`ValueError` (`except` branch: append the new species and extend `zs` with
the new 1-based length `len(unique_species)` after the append). -/
def speciesAssignAux : List (S × ℕ) → List S → List ℕ → List S × List ℕ
  | [], uniq, zs => (uniq, zs)
  | (sp, cnt) :: rest, uniq, zs =>
    match pyIndex uniq sp with
    | some ind => speciesAssignAux rest uniq (zs ++ List.replicate cnt (ind + 1))
    | none =>
        speciesAssignAux rest (uniq ++ [sp]) (zs ++ List.replicate cnt (uniq.length + 1))

/-- The species conversion of `SymmetryFinder.__init__` (finder.py
lines 77-89): produces `(unique_species, zs)`. -/
def toOracleSpecies (sites : List S) : List S × List ℕ :=
  speciesAssignAux (groupbyRuns sites) [] []

/-- Append `s` to the list unless already present (first-occurrence
deduplication step).  This is the spec-side description of the
unique-species list ("ordered set of unique ... groups encountered in the
structure, in first-occurrence order"). -/
def insertNew (u : List S) (s : S) : List S := if s ∈ u then u else u ++ [s]

/-- Spec-side definition: the distinct elements of `l` in first-occurrence
order.  `toOracleSpecies` is proved to agree with it. -/
def firstOccurrences (l : List S) : List S := l.foldl insertNew []

/-- The error taxonomy the specification assigns to the adapter.  The
source constructor contains no validation and no `raise`, so no code path
below produces this error; the `Except` wrapper makes that absence a
provable statement. -/
inductive AdapterError
  | invalidStructure
deriving DecidableEq

/-- The numeric arrays the oracle requires, as assembled by
`SymmetryFinder.__init__` (finder.py lines 71-89). -/
structure OracleInput (S : Type) where
  transposedLatt : Mat3
  positions : List Vec3
  numbers : List ℕ
  uniqueSpecies : List S

/-- The GeometryAdapter conversion inside `SymmetryFinder.__init__`
(finder.py lines 71-89): transpose the lattice, collect fractional
coordinates, and build the species-index arrays.  The source performs no
zero-site (or any other) validation, so the result is always `Except.ok`. -/
def toOracleInput (latt : Mat3) (sites : List (S × Vec3)) :
    Except AdapterError (OracleInput S) :=
  let species := toOracleSpecies (sites.map Prod.fst)
  Except.ok
    { transposedLatt := latt.transpose
      positions := sites.map Prod.snd
      numbers := species.2
      uniqueSpecies := species.1 }

/-! ## `find_primitive` (finder.py lines 322-347) -/

/-- The buffers after `spg.primitive` has mutated them in place, plus the
returned reduced atom count.  The oracle itself is external (out of scope);
`find_primitive` consumes an arbitrary such result. -/
structure PrimitiveSearchResult where
  count : ℕ
  latt : Mat3
  positions : List Vec3
  numbers : List ℕ

/-- Python list indexing `l[j]`: non-negative indexes from the front,
negative indexes wrap from the back, anything else raises `IndexError`
(modelled as `none`). -/
def pyListGet {α : Type} (l : List α) (j : ℤ) : Option α :=
  if 0 ≤ j then l.get? j.toNat
  else if -j ≤ (l.length : ℤ) then l.get? (l.length - (-j).toNat)
  else none

/-- A list comprehension whose body may raise (here: `IndexError`): the
whole comprehension fails if any element fails. -/
def optTraverse {α β : Type} (f : α → Option β) : List α → Option (List β)
  | [] => some []
  | a :: l =>
    match f a, optTraverse f l with
    | some b, some l2 => some (b :: l2)
    | _, _ => none

/-- `SymmetryFinder.find_primitive` (finder.py lines 322-347): take the
first `count` species indices, recover species via
`self._unique_species[i - 1]`, and return either the new structure
(`count > 0`) or the original structure (`count == 0`). -/
def find_primitive (orig : PyStructure) (uniqueSpecies : List ℕ)
    (o : PrimitiveSearchResult) : Option PyStructure :=
  let zs := o.numbers.take o.count
  match optTraverse (fun i : ℕ => pyListGet uniqueSpecies ((i : ℤ) - 1)) zs with
  | none => none
  | some species =>
    if 0 < o.count then
      some ⟨o.latt.transpose, species.zip (o.positions.take o.count)⟩
    else some orig

/-! ## `get_primitive_standard_structure` (finder.py lines 400-467) -/

/-- Centering transform for "I" in the space-group symbol
(finder.py lines 441-443): `½ [[-1,1,1],[1,-1,1],[1,1,-1]]`. -/
def iMat : Mat3 := (1 / 2 : ℚ) • !![-1, 1, 1; 1, -1, 1; 1, 1, -1]

/-- Centering transform for "F" (finder.py lines 444-446):
`½ [[0,1,1],[1,0,1],[1,1,0]]`. -/
def fMat : Mat3 := (1 / 2 : ℚ) • !![0, 1, 1; 1, 0, 1; 1, 1, 0]

/-- Centering transform for "C" with monoclinic crystal system
(finder.py lines 447-450): `½ [[1,1,0],[-1,1,0],[0,0,2]]`. -/
def cMonoMat : Mat3 := (1 / 2 : ℚ) • !![1, 1, 0; -1, 1, 0; 0, 0, 2]

/-- Centering transform for "C" otherwise (finder.py lines 451-453):
`½ [[1,-1,0],[1,1,0],[0,0,2]]`. -/
def cOtherMat : Mat3 := (1 / 2 : ℚ) • !![1, -1, 0; 1, 1, 0; 0, 0, 2]

/-- Matrix-vector product `A · v` for the fixed size 3, written out
componentwise so that concrete instances evaluate. -/
def mulVec3 (A : Mat3) (v : Vec3) : Vec3 :=
  fun i => A i 0 * v 0 + A i 1 * v 1 + A i 2 * v 2

/-- Vector-matrix product `v · A` (row-vector convention). -/
def vecMul3 (v : Vec3) (A : Mat3) : Vec3 :=
  fun j => v 0 * A 0 j + v 1 * A 1 j + v 2 * A 2 j

/-- `numpy.linalg.inv` for a nonsingular 3×3 matrix, in closed form
(`det⁻¹ · adjugate`; this is the computable unfolding of the matrix
inverse over the field ℚ). -/
def inv3 (A : Mat3) : Mat3 := (A.det)⁻¹ • A.adjugate

/-- Cartesian coordinates of a site: `frac · matrix`
(row-vector convention of `pymatgen.core.lattice`). -/
def cartOf (L : Mat3) (frac : Vec3) : Vec3 := vecMul3 frac L

/-- Fractional coordinates of a cartesian point w.r.t. lattice `L`. -/
def fracOf (L : Mat3) (cart : Vec3) : Vec3 := vecMul3 cart (inv3 L)

/-- `to_unit_cell=True` of `PeriodicSite`: reduce each fractional
coordinate into `[0, 1)`. -/
def toUnitCellVec (v : Vec3) : Vec3 := fun i => Int.fract (v i)

/-- `PeriodicSite.is_periodic_image` for two sites of the same lattice:
same species and fractional coordinates differing by integers (the source
compares within a tolerance defaulting to `1e-8`; over exact rationals the
test is exact integrality, i.e. denominator 1). -/
def isPeriodicImage (s t : ℕ × Vec3) : Prop :=
  s.1 = t.1 ∧ ∀ i : Fin 3, (s.2 i - t.2 i).den = 1

instance (s t : ℕ × Vec3) : Decidable (isPeriodicImage s t) := by
  unfold isPeriodicImage; infer_instance

/-- The accepted-site accumulation of `get_primitive_standard_structure`
(finder.py lines 454-466): append a new site only when it is not a
periodic image of any previously accepted site. -/
def addIfUnique (acc : List (ℕ × Vec3)) (s : ℕ × Vec3) : List (ℕ × Vec3) :=
  if ∀ t ∈ acc, ¬ isPeriodicImage s t then acc ++ [s] else acc

/-- `SymmetryFinder.get_primitive_standard_structure` (finder.py
lines 400-467).  `conv` is the conventional standard structure computed at
line 411; `latticeType`, `crystalSystem` and the space-group `symbol` are
the session's derived queries (the symbol is a character list; Python's
`"P" in symbol` is character containment).  The rhombohedral branch
(lines 417-438) rebuilds a cell from the *refined* structure using
cosines of its α angle; that construction involves no claim settled here
and is supplied as the parameter `rhombResult`.  All other branches are
embedded in full. -/
def get_primitive_standard_structure (symbol : List Char) (latticeType : String)
    (crystalSystem : Option String) (conv rhombResult : PyStructure) : PyStructure :=
  if symbol.contains 'P' = true ∨ latticeType = "hexagonal" then conv
  else if latticeType = "rhombohedral" then rhombResult
  else
    let transf : Mat3 :=
      if symbol.contains 'I' = true then iMat
      else if symbol.contains 'F' = true then fMat
      else if symbol.contains 'C' = true then
        if crystalSystem = some "monoclinic" then cMonoMat else cOtherMat
      else 1
    let newLatt := transf * conv.latt
    let mapped := conv.sites.map
      (fun s => (s.1, toUnitCellVec (fracOf newLatt (cartOf conv.latt s.2))))
    { latt := newLatt, sites := mapped.foldl addIfUnique [] }

/-! ## The branch-finishing step of `get_conventional_standard_structure`
(finder.py lines 514-520 and the final sort at line 735) -/

/-- The canonical site order: by species code, then position
(lexicographically by fractional coordinates). -/
def siteLeProp (s t : ℕ × Vec3) : Prop :=
  s.1 < t.1 ∨ (s.1 = t.1 ∧ (s.2 0 < t.2 0 ∨ (s.2 0 = t.2 0 ∧
    (s.2 1 < t.2 1 ∨ (s.2 1 = t.2 1 ∧ s.2 2 ≤ t.2 2)))))

instance : DecidableRel siteLeProp := fun s t => by
  unfold siteLeProp; infer_instance

instance : IsTotal (ℕ × Vec3) siteLeProp :=
  ⟨by
    intro a b
    unfold siteLeProp
    rcases lt_trichotomy a.1 b.1 with h | h | h
    · exact Or.inl (Or.inl h)
    · rcases lt_trichotomy (a.2 0) (b.2 0) with h0 | h0 | h0
      · exact Or.inl (Or.inr ⟨h, Or.inl h0⟩)
      · rcases lt_trichotomy (a.2 1) (b.2 1) with h1 | h1 | h1
        · exact Or.inl (Or.inr ⟨h, Or.inr ⟨h0, Or.inl h1⟩⟩)
        · rcases le_total (a.2 2) (b.2 2) with h2 | h2
          · exact Or.inl (Or.inr ⟨h, Or.inr ⟨h0, Or.inr ⟨h1, h2⟩⟩⟩)
          · exact Or.inr (Or.inr ⟨h.symm, Or.inr ⟨h0.symm, Or.inr ⟨h1.symm, h2⟩⟩⟩)
        · exact Or.inr (Or.inr ⟨h.symm, Or.inr ⟨h0.symm, Or.inl h1⟩⟩)
      · exact Or.inr (Or.inr ⟨h.symm, Or.inl h0⟩)
    · exact Or.inr (Or.inl h)⟩

instance : IsTrans (ℕ × Vec3) siteLeProp :=
  ⟨by
    intro a b c hab hbc
    unfold siteLeProp at hab hbc ⊢
    rcases hab with h | ⟨e1, hab⟩
    · rcases hbc with h' | ⟨e1', _⟩
      · exact Or.inl (h.trans h')
      · exact Or.inl (lt_of_lt_of_eq h e1')
    · rcases hbc with h' | ⟨e1', hbc⟩
      · exact Or.inl (lt_of_eq_of_lt e1 h')
      · refine Or.inr ⟨e1.trans e1', ?_⟩
        rcases hab with h0 | ⟨f0, hab⟩
        · rcases hbc with h0' | ⟨f0', _⟩
          · exact Or.inl (h0.trans h0')
          · exact Or.inl (lt_of_lt_of_eq h0 f0')
        · rcases hbc with h0' | ⟨f0', hbc⟩
          · exact Or.inl (lt_of_eq_of_lt f0 h0')
          · refine Or.inr ⟨f0.trans f0', ?_⟩
            rcases hab with h1 | ⟨g1, hab⟩
            · rcases hbc with h1' | ⟨g1', _⟩
              · exact Or.inl (h1.trans h1')
              · exact Or.inl (lt_of_lt_of_eq h1 g1')
            · rcases hbc with h1' | ⟨g1', hbc⟩
              · exact Or.inl (lt_of_eq_of_lt g1 h1')
              · exact Or.inr ⟨g1.trans g1', hab.trans hbc⟩⟩

/-- Modelled from the spec: `Structure.get_sorted_structure` (pymatgen
core, not under `src/`), which the spec describes as returning "sites
sorted canonically by species then position". -/
def sortSites (sites : List (ℕ × Vec3)) : List (ℕ × Vec3) :=
  List.insertionSort siteLeProp sites

/-- Per-site transformation of the orthorhombic/cubic branch (finder.py
lines 514-519): `PeriodicSite(s.specie, np.dot(transf, s.frac_coords),
Lattice(new_matrix), to_unit_cell=True)`. -/
def orthoSiteMap (transf : Mat3) (s : ℕ × Vec3) : ℕ × Vec3 :=
  (s.1, toUnitCellVec (mulVec3 transf s.2))

/-- The finishing step shared by the branches of
`get_conventional_standard_structure`: map every refined-cell site through
the branch transformation (here the orthorhombic/cubic per-site map),
collect *all* of them (the source has no periodic-image check in this
function), and return them canonically sorted
(`results.get_sorted_structure()`, finder.py line 735). -/
def convFinish (transf : Mat3) (sites : List (ℕ × Vec3)) : List (ℕ × Vec3) :=
  sortSites (sites.map (orthoSiteMap transf))

/-! ## The monoclinic branch of `get_conventional_standard_structure`
(finder.py lines 581-707)

The source compares lattice *angles* against 90° and lattice *lengths*
against one another.  For the actual real-valued quantities these tests
are equivalent to exact rational tests on the candidate rows `u, v`:
`angle(u, v) > 90° ↔ u·v < 0`, `angle(u, v) < 90° ↔ u·v > 0` (the rows of a
lattice are non-zero), and `|u| < |v| ↔ |u|² < |v|²`.  The embedding
therefore carries squared lengths and dot products. -/

/-- The scalar `alpha` local of the monoclinic branch, in exact form: the
angle whose cosine is `dot / √(bSq · cSq)`. -/
structure MonoAlpha where
  dot : ℚ
  bSq : ℚ
  cSq : ℚ
deriving DecidableEq

/-- The `new_matrix` candidate `[[a,0,0],[0,b,0],[0,c·cos α,c·sin α]]` of
the monoclinic branch, in exact form: `a = √aSq`, `b = √bSq`, `c = √cSq`,
and `α` as a `MonoAlpha`. -/
structure MonoNewMatrix where
  aSq : ℚ
  bSq : ℚ
  cSq : ℚ
  alpha : MonoAlpha
deriving DecidableEq

/-- The exceptions the monoclinic branch can raise. -/
inductive MonoExn
  /-- `UnboundLocalError`: the fallback `new_matrix = [[a,0,0],[0,b,0],
  [0,c*cos(alpha),c*sin(alpha)]]` (finder.py lines 637-642) references the
  local `alpha`, which is only ever assigned inside the loop branches that
  also set `new_matrix`; when `new_matrix is None` after the loop, `alpha`
  was never assigned. -/
  | unboundLocalAlpha
  /-- `Lattice(new_matrix)` with `new_matrix is None` (finder.py line 705):
  the non-C fallback (lines 696-699) sets only `trans`, never
  `new_matrix`. -/
  | latticeOfNone
  /-- `UnboundLocalError` on `trans` (unreachable: `trans` is assigned
  whenever `new_matrix` is; kept to make the embedding total without
  assuming that invariant). -/
  | unboundLocalTrans
deriving DecidableEq

deriving instance DecidableEq for Except

/-- A matrix with `s0` at `(0, t0)`, `s1` at `(1, t1)`, `s2` at `(2, t2)`
and zeros elsewhere: the `trans` matrices the monoclinic branch builds. -/
def axisMat (t0 t1 t2 : Fin 3) (s0 s1 s2 : ℚ) : Mat3 :=
  Matrix.of fun i j =>
    if i = 0 ∧ j = t0 then s0
    else if i = 1 ∧ j = t1 then s1
    else if i = 2 ∧ j = t2 then s2
    else 0

/-- The local-variable state of the C-centred monoclinic loop
(finder.py lines 585-636): `trans`, the length locals `a`, `b`, `c`
(as squares), the possibly-unassigned `alpha`, and `new_matrix`. -/
structure MonoCState where
  trans : Mat3
  aSq : ℚ
  bSq : ℚ
  cSq : ℚ
  alpha : Option MonoAlpha
  newMatrix : Option MonoNewMatrix

/-- One iteration of the C-centred monoclinic loop (finder.py
lines 596-636) for the axis pair `t` (the candidate lattice is
`[m[t.1], m[t.2], m[2]]`, so its first angle is the one between `m[t.2]`
and `m[2]`). -/
def monoCStep (m : Fin 3 → Vec3) (st : MonoCState) (t : Fin 3 × Fin 3) :
    MonoCState :=
  let d := dot3 (m t.2) (m 2)
  if d < 0 then
    -- angle > 90°: negate the first two axes (lines 601-619); lengths are
    -- unchanged and the recomputed first angle has dot `-d`
    { trans := axisMat t.1 t.2 2 (-1) (-1) 1
      aSq := lenSq (m t.1), bSq := lenSq (m t.2), cSq := lenSq (m 2)
      alpha := some ⟨-d, lenSq (m t.2), lenSq (m 2)⟩
      newMatrix := some ⟨lenSq (m t.1), lenSq (m t.2), lenSq (m 2),
        ⟨-d, lenSq (m t.2), lenSq (m 2)⟩⟩ }
  else if 0 < d then
    -- angle < 90° (lines 621-636)
    { trans := axisMat t.1 t.2 2 1 1 1
      aSq := lenSq (m t.1), bSq := lenSq (m t.2), cSq := lenSq (m 2)
      alpha := some ⟨d, lenSq (m t.2), lenSq (m 2)⟩
      newMatrix := some ⟨lenSq (m t.1), lenSq (m t.2), lenSq (m 2),
        ⟨d, lenSq (m t.2), lenSq (m 2)⟩⟩ }
  else st

/-- The C-centred monoclinic branch (finder.py lines 585-651).  Pre-loop:
`trans[2] = [0,0,1]` with zero first rows, `a ≤ b` the sorted lengths of
axes 0 and 1 (Python `sorted` is stable, so equal lengths keep order 0, 1)
and `c` the length of axis 2.  Post-loop: if `new_matrix is None`, the
first fallback (lines 637-642) builds a matrix from `a, b, c, alpha` —
raising `UnboundLocalError` since `alpha` was never assigned on this path;
the second fallback (lines 643-651) would only run if `new_matrix` were
still `None` after the first assigned it, so it is dead code. -/
def monoC (m : Fin 3 → Vec3) : Except MonoExn (Mat3 × MonoNewMatrix) :=
  let st0 : MonoCState :=
    { trans := Matrix.of fun i j => if i = 2 ∧ j = 2 then (1 : ℚ) else 0
      aSq := if lenSq (m 1) < lenSq (m 0) then lenSq (m 1) else lenSq (m 0)
      bSq := if lenSq (m 1) < lenSq (m 0) then lenSq (m 0) else lenSq (m 1)
      cSq := lenSq (m 2)
      alpha := none
      newMatrix := none }
  let st := [((0 : Fin 3), (1 : Fin 3)), (1, 0)].foldl (monoCStep m) st0
  match st.newMatrix with
  | some nm => Except.ok (st.trans, nm)
  | none =>
    match st.alpha with
    | none => Except.error MonoExn.unboundLocalAlpha
    | some al => Except.ok (st.trans, ⟨st.aSq, st.bSq, st.cSq, al⟩)

/-- The local-variable state of the non-C monoclinic loop: `trans` is not
assigned before the loop on this path, hence `Option`. -/
structure MonoNCState where
  trans : Option Mat3
  newMatrix : Option MonoNewMatrix

/-- One iteration of the non-C monoclinic loop (finder.py lines 658-695)
for the axis triple `t`: a branch fires only when the first angle of the
candidate `[m[t0], m[t1], m[t2]]` is non-90° *and* `b < c`
(`landang[0][1] < landang[0][2]`). -/
def monoNCStep (m : Fin 3 → Vec3) (st : MonoNCState) (t : Fin 3 × Fin 3 × Fin 3) :
    MonoNCState :=
  let d := dot3 (m t.2.1) (m t.2.2)
  if d < 0 ∧ lenSq (m t.2.1) < lenSq (m t.2.2) then
    { trans := some (axisMat t.1 t.2.1 t.2.2 (-1) (-1) 1)
      newMatrix := some ⟨lenSq (m t.1), lenSq (m t.2.1), lenSq (m t.2.2),
        ⟨-d, lenSq (m t.2.1), lenSq (m t.2.2)⟩⟩ }
  else if 0 < d ∧ lenSq (m t.2.1) < lenSq (m t.2.2) then
    { trans := some (axisMat t.1 t.2.1 t.2.2 1 1 1)
      newMatrix := some ⟨lenSq (m t.1), lenSq (m t.2.1), lenSq (m t.2.2),
        ⟨d, lenSq (m t.2.1), lenSq (m t.2.2)⟩⟩ }
  else st

/-- The non-C monoclinic branch (finder.py lines 653-707).  The loop tries
all 6 axis permutations in `itertools.permutations` order.  Post-loop, if
`new_matrix is None` the fallback (lines 696-699) assigns only `trans`
(clobbering the local `c` as its loop variable) and leaves `new_matrix`
as `None`; the subsequent `Lattice(new_matrix)` (line 705) then receives
`None` and raises. -/
def monoNC (m : Fin 3 → Vec3) : Except MonoExn (Mat3 × MonoNewMatrix) :=
  let st0 : MonoNCState := { trans := none, newMatrix := none }
  let perms : List (Fin 3 × Fin 3 × Fin 3) :=
    [(0, 1, 2), (0, 2, 1), (1, 0, 2), (1, 2, 0), (2, 0, 1), (2, 1, 0)]
  let st := perms.foldl (monoNCStep m) st0
  match st.newMatrix with
  | none => Except.error MonoExn.latticeOfNone
  | some nm =>
    match st.trans with
    | some tr => Except.ok (tr, nm)
    | none => Except.error MonoExn.unboundLocalTrans

/-- The monoclinic branch of `get_conventional_standard_structure`
(finder.py lines 581-707), dispatching on whether the space-group symbol
is C-centred (line 585). -/
def monoclinicNewMatrix (m : Fin 3 → Vec3) (isC : Bool) :
    Except MonoExn (Mat3 × MonoNewMatrix) :=
  if isC then monoC m else monoNC m

/-! ## The triclinic branch of `get_conventional_standard_structure`
(finder.py lines 709-733)

The closed-form Gram-matrix construction is genuinely trigonometric, so
this part is embedded over `ℝ`.  The source works with angles in degrees
and converts to radians (`alpha = math.pi * angles[0] / 180`); the
embedding works directly with the radian values (the conversion is a
bijection fixing nothing relevant). -/

/-- The standard triclinic matrix built by the triclinic branch
(finder.py lines 719-727): `row1 = (a,0,0)`,
`row2 = (b·cos γ, b·sin γ, 0)`, `row3 = (c·cos β,
c·(cos α − cos β·cos γ)/sin γ, c·√(sin²γ − cos²α − cos²β +
2·cos α·cos β·cos γ)/sin γ)`. -/
noncomputable def triclinicMatrix (a b c α β γ : ℝ) : Fin 3 → Fin 3 → ℝ :=
  ![![a, 0, 0],
    ![b * Real.cos γ, b * Real.sin γ, 0],
    ![c * Real.cos β,
      c * (Real.cos α - Real.cos β * Real.cos γ) / Real.sin γ,
      c * Real.sqrt (Real.sin γ ^ 2 - Real.cos α ^ 2 - Real.cos β ^ 2
        + 2 * Real.cos α * Real.cos β * Real.cos γ) / Real.sin γ]]

/-- Dot product of rows `i` and `j` of a real 3×3 matrix. -/
noncomputable def rowDot (M : Fin 3 → Fin 3 → ℝ) (i j : Fin 3) : ℝ :=
  M i 0 * M j 0 + M i 1 * M j 1 + M i 2 * M j 2

/-- Length of row `i`: the reconstruction of the cell lengths `(a, b, c)`
performed by `Lattice.lengths_and_angles`. -/
noncomputable def rowLen (M : Fin 3 → Fin 3 → ℝ) (i : Fin 3) : ℝ :=
  Real.sqrt (rowDot M i i)

/-- The angle between rows `i` and `j`: the reconstruction of the cell
angles performed by `Lattice.lengths_and_angles` (α is the angle between
rows 1 and 2, β between rows 0 and 2, γ between rows 0 and 1). -/
noncomputable def rowAngle (M : Fin 3 → Fin 3 → ℝ) (i j : Fin 3) : ℝ :=
  Real.arccos (rowDot M i j / (rowLen M i * rowLen M j))

/-! ## `get_ir_kpoints` (finder.py lines 378-398) -/

/-- The loop of `get_ir_kpoints`, carried state `(irr_kpts, n)`.  Note the
source appends the loop index `i` to `n` (`n.append(i)`, finder.py
line 397) while the membership test is on `mapping[i]`.  `mapping` always
has the same length as the k-point list (it is allocated as
`np.zeros(len(kpoints))`), so `getD` never falls back to its default. -/
def irKpointsLoop (mapping : List ℕ) (i : ℕ) (rest irr : List Vec3)
    (seen : List ℕ) : List Vec3 :=
  match rest with
  | [] => irr
  | k :: ks =>
    if mapping.getD i 0 ∉ seen then
      irKpointsLoop mapping (i + 1) ks (irr ++ [k]) (seen ++ [i])
    else irKpointsLoop mapping (i + 1) ks irr seen

/-- `SymmetryFinder.get_ir_kpoints` (finder.py lines 378-398), as a
function of the input k-points and the mapping array the oracle returned
via `get_ir_kpoints_mapping`. -/
def get_ir_kpoints (kpoints : List Vec3) (mapping : List ℕ) : List Vec3 :=
  irKpointsLoop mapping 0 kpoints [] []

end Finder

namespace Finder

/-! ## Theorems for claims C2 and C10 -/

/-- C2: for every space-group number `1 ≤ n ≤ 230`, `get_crystal_system`
returns exactly the label of the unique inclusive range containing `n`, and
`get_lattice_type` returns `"rhombohedral"` iff `n` is one of the seven
rhombohedral numbers, `"hexagonal"` for every other trigonal `n`, and the
crystal-system label otherwise. -/
theorem crystal_system_lattice_type_ranges (n : ℕ) (h1 : 1 ≤ n) (h2 : n ≤ 230) :
    (∀ e ∈ crystalSystems,
      (get_crystal_system n = some e.1 ↔ e.2.1 ≤ n ∧ n ≤ e.2.2))
    ∧ (get_lattice_type n = some "rhombohedral" ↔ n ∈ rhombohedralNumbers)
    ∧ (get_crystal_system n = some "trigonal" → n ∉ rhombohedralNumbers →
        get_lattice_type n = some "hexagonal")
    ∧ (get_crystal_system n ≠ some "trigonal" → n ∉ rhombohedralNumbers →
        get_lattice_type n = get_crystal_system n) := by
  have H1 : ∀ m, m < 231 → 1 ≤ m →
      (∀ e ∈ crystalSystems,
        (get_crystal_system m = some e.1 ↔ e.2.1 ≤ m ∧ m ≤ e.2.2))
      ∧ (get_lattice_type m = some "rhombohedral" ↔ m ∈ rhombohedralNumbers) := by
    decide
  have H2 : ∀ m, m < 231 →
      (get_crystal_system m = some "trigonal" → m ∉ rhombohedralNumbers →
        get_lattice_type m = some "hexagonal") := by decide
  have H3 : ∀ m, m < 231 →
      (¬ (get_crystal_system m = some "trigonal") →
        get_lattice_type m = get_crystal_system m ∨ m ∈ rhombohedralNumbers) := by
    decide
  refine ⟨(H1 n (by omega) h1).1, (H1 n (by omega) h1).2, H2 n (by omega), ?_⟩
  intro hne hmem
  rcases H3 n (by omega) hne with h | h
  · exact h
  · exact absurd h hmem

theorem crystal_system_lattice_type_ranges_witness :
    1 ≤ 146 ∧ 146 ≤ 230
    ∧ ((∀ e ∈ crystalSystems,
        (get_crystal_system 146 = some e.1 ↔ e.2.1 ≤ 146 ∧ 146 ≤ e.2.2))
      ∧ (get_lattice_type 146 = some "rhombohedral" ↔ 146 ∈ rhombohedralNumbers)
      ∧ (get_crystal_system 146 = some "trigonal" → 146 ∉ rhombohedralNumbers →
          get_lattice_type 146 = some "hexagonal")
      ∧ (get_crystal_system 146 ≠ some "trigonal" → 146 ∉ rhombohedralNumbers →
          get_lattice_type 146 = get_crystal_system 146)) :=
  ⟨by decide, by decide,
    crystal_system_lattice_type_ranges 146 (by decide) (by decide)⟩

/-- C10: for a space-group number outside 1-230 (such as 0 or 231), the
range-table lookup of `get_crystal_system` is total and returns `none`
rather than a label or an exception. -/
theorem crystal_system_out_of_range_none (n : ℕ) (h : n = 0 ∨ 230 < n) :
    get_crystal_system n = none := by
  rcases h with h | h
  · subst h; decide
  · unfold get_crystal_system crystalSystems
    rw [List.find?_cons_of_neg, List.find?_cons_of_neg, List.find?_cons_of_neg,
      List.find?_cons_of_neg, List.find?_cons_of_neg, List.find?_cons_of_neg,
      List.find?_cons_of_neg] <;>
      simp <;> omega

theorem crystal_system_out_of_range_none_witness :
    (231 = 0 ∨ 230 < 231) ∧ get_crystal_system 231 = none :=
  ⟨Or.inr (by decide), crystal_system_out_of_range_none 231 (Or.inr (by decide))⟩

/-! ## Theorems for claim C8 -/

/-- C8: for positive lengths, angles in `(0, π)` and a positive Gram
discriminant, the matrix built by the triclinic branch has row lengths
exactly `(a, b, c)` and pairwise row angles exactly `(α, β, γ)`:
reconstructing the six cell metrics from the built matrix reproduces the
inputs. -/
theorem triclinic_round_trip (a b c α β γ : ℝ)
    (ha : 0 < a) (hb : 0 < b) (hc : 0 < c)
    (hα0 : 0 < α) (hαπ : α < Real.pi)
    (hβ0 : 0 < β) (hβπ : β < Real.pi)
    (hγ0 : 0 < γ) (hγπ : γ < Real.pi)
    (hD : 0 < Real.sin γ ^ 2 - Real.cos α ^ 2 - Real.cos β ^ 2
        + 2 * Real.cos α * Real.cos β * Real.cos γ) :
    rowLen (triclinicMatrix a b c α β γ) 0 = a
    ∧ rowLen (triclinicMatrix a b c α β γ) 1 = b
    ∧ rowLen (triclinicMatrix a b c α β γ) 2 = c
    ∧ rowAngle (triclinicMatrix a b c α β γ) 1 2 = α
    ∧ rowAngle (triclinicMatrix a b c α β γ) 0 2 = β
    ∧ rowAngle (triclinicMatrix a b c α β γ) 0 1 = γ := by
  have hsγ : 0 < Real.sin γ := Real.sin_pos_of_pos_of_lt_pi hγ0 hγπ
  have hs : Real.sin γ ≠ 0 := ne_of_gt hsγ
  have hsq : Real.sqrt (Real.sin γ ^ 2 - Real.cos α ^ 2 - Real.cos β ^ 2
      + 2 * Real.cos α * Real.cos β * Real.cos γ) ^ 2
      = Real.sin γ ^ 2 - Real.cos α ^ 2 - Real.cos β ^ 2
      + 2 * Real.cos α * Real.cos β * Real.cos γ := Real.sq_sqrt hD.le
  have e00 : rowDot (triclinicMatrix a b c α β γ) 0 0 = a ^ 2 := by
    simp only [rowDot, triclinicMatrix, Matrix.cons_val_zero, Matrix.cons_val_one,
      Matrix.cons_val_two, Matrix.head_cons, Matrix.tail_cons]
    ring
  have e11 : rowDot (triclinicMatrix a b c α β γ) 1 1 = b ^ 2 := by
    simp only [rowDot, triclinicMatrix, Matrix.cons_val_zero, Matrix.cons_val_one,
      Matrix.cons_val_two, Matrix.head_cons, Matrix.tail_cons]
    linear_combination (b ^ 2) * Real.sin_sq_add_cos_sq γ
  have e22 : rowDot (triclinicMatrix a b c α β γ) 2 2 = c ^ 2 := by
    simp only [rowDot, triclinicMatrix, Matrix.cons_val_zero, Matrix.cons_val_one,
      Matrix.cons_val_two, Matrix.head_cons, Matrix.tail_cons]
    field_simp
    linear_combination (c ^ 2 * Real.cos β ^ 2) * Real.sin_sq_add_cos_sq γ
      + c ^ 2 * hsq
  have d01 : rowDot (triclinicMatrix a b c α β γ) 0 1 = a * b * Real.cos γ := by
    simp only [rowDot, triclinicMatrix, Matrix.cons_val_zero, Matrix.cons_val_one,
      Matrix.cons_val_two, Matrix.head_cons, Matrix.tail_cons]
    ring
  have d02 : rowDot (triclinicMatrix a b c α β γ) 0 2 = a * c * Real.cos β := by
    simp only [rowDot, triclinicMatrix, Matrix.cons_val_zero, Matrix.cons_val_one,
      Matrix.cons_val_two, Matrix.head_cons, Matrix.tail_cons]
    ring
  have d12 : rowDot (triclinicMatrix a b c α β γ) 1 2 = b * c * Real.cos α := by
    simp only [rowDot, triclinicMatrix, Matrix.cons_val_zero, Matrix.cons_val_one,
      Matrix.cons_val_two, Matrix.head_cons, Matrix.tail_cons]
    field_simp
    ring
  have l0 : rowLen (triclinicMatrix a b c α β γ) 0 = a := by
    rw [rowLen, e00, Real.sqrt_sq ha.le]
  have l1 : rowLen (triclinicMatrix a b c α β γ) 1 = b := by
    rw [rowLen, e11, Real.sqrt_sq hb.le]
  have l2 : rowLen (triclinicMatrix a b c α β γ) 2 = c := by
    rw [rowLen, e22, Real.sqrt_sq hc.le]
  refine ⟨l0, l1, l2, ?_, ?_, ?_⟩
  · rw [rowAngle, d12, l1, l2,
      mul_div_cancel_left₀ (Real.cos α) (mul_ne_zero hb.ne' hc.ne')]
    exact Real.arccos_cos hα0.le hαπ.le
  · rw [rowAngle, d02, l0, l2,
      mul_div_cancel_left₀ (Real.cos β) (mul_ne_zero ha.ne' hc.ne')]
    exact Real.arccos_cos hβ0.le hβπ.le
  · rw [rowAngle, d01, l0, l1,
      mul_div_cancel_left₀ (Real.cos γ) (mul_ne_zero ha.ne' hb.ne')]
    exact Real.arccos_cos hγ0.le hγπ.le

theorem triclinic_round_trip_witness :
    (0 : ℝ) < 1 ∧ 0 < Real.pi / 2 ∧ Real.pi / 2 < Real.pi
    ∧ 0 < Real.sin (Real.pi / 2) ^ 2 - Real.cos (Real.pi / 2) ^ 2
        - Real.cos (Real.pi / 2) ^ 2
        + 2 * Real.cos (Real.pi / 2) * Real.cos (Real.pi / 2)
          * Real.cos (Real.pi / 2)
    ∧ rowLen (triclinicMatrix 1 1 1 (Real.pi / 2) (Real.pi / 2) (Real.pi / 2)) 0 = 1
    ∧ rowAngle (triclinicMatrix 1 1 1 (Real.pi / 2) (Real.pi / 2) (Real.pi / 2)) 0 1
        = Real.pi / 2 :=
  have h1 : (0 : ℝ) < 1 := one_pos
  have h2 : (0 : ℝ) < Real.pi / 2 := half_pos Real.pi_pos
  have h3 : Real.pi / 2 < Real.pi := half_lt_self Real.pi_pos
  have hD : 0 < Real.sin (Real.pi / 2) ^ 2 - Real.cos (Real.pi / 2) ^ 2
      - Real.cos (Real.pi / 2) ^ 2
      + 2 * Real.cos (Real.pi / 2) * Real.cos (Real.pi / 2)
        * Real.cos (Real.pi / 2) := by
    simp [Real.sin_pi_div_two, Real.cos_pi_div_two]
  ⟨h1, h2, h3, hD,
    (triclinic_round_trip 1 1 1 (Real.pi / 2) (Real.pi / 2) (Real.pi / 2)
      h1 h1 h1 h2 h3 h2 h3 h2 h3 hD).1,
    (triclinic_round_trip 1 1 1 (Real.pi / 2) (Real.pi / 2) (Real.pi / 2)
      h1 h1 h1 h2 h3 h2 h3 h2 h3 hD).2.2.2.2.2⟩

/-! ## Theorems for claim C9 -/

/-- C9: the claim fails on the code.  `get_ir_kpoints` appends the loop
index `i` instead of `mapping[i]` to the seen list (finder.py line 397), so
for the k-points `[[0,0,0],[1/2,0,0]]` with oracle mapping `[1, 1]` (both
points equivalent, designated representative index 1) it returns 2
k-points although the mapping has a single distinct value: one equivalence
class is represented twice.  This contradicts the source's own
documentation ("A set of irreducible kpoints", "number of unique values in
map is the number of the irreducible kpoints"). -/
theorem ir_kpoints_overcount :
    (get_ir_kpoints [![0, 0, 0], ![1/2, 0, 0]] [1, 1]).length = 2
    ∧ ([1, 1] : List ℕ).dedup.length = 1
    ∧ (get_ir_kpoints [![0, 0, 0], ![1/2, 0, 0]] [1, 1]).length
        ≠ ([1, 1] : List ℕ).dedup.length := by decide

/-! ## Theorems for claim C5 -/

/-- Helper: a fallible list comprehension succeeds when every element
succeeds, elementwise. -/
theorem optTraverse_eq_some {α β : Type} (f : α → Option β) (l : List α)
    (h : ∀ a ∈ l, (f a).isSome) :
    ∃ l2, optTraverse f l = some l2 ∧ l2.length = l.length
      ∧ ∀ k a, l.get? k = some a → l2.get? k = f a := by
  induction l with
  | nil =>
    refine ⟨[], rfl, rfl, ?_⟩
    intro k a hk
    simp at hk
  | cons a l ih =>
    obtain ⟨b, hb⟩ := Option.isSome_iff_exists.mp (h a (.head _))
    obtain ⟨l2, hl2, hlen, hget⟩ := ih (fun x hx => h x (.tail _ hx))
    refine ⟨b :: l2, ?_, by simp [hlen], ?_⟩
    · simp [optTraverse, hb, hl2]
    · intro k c hk
      cases k with
      | zero =>
        simp only [List.get?_cons_zero, Option.some.injEq] at hk
        subst hk
        simp [hb]
      | succ k =>
        simp only [List.get?_cons_succ] at hk ⊢
        exact hget k c hk

/-- C5: `find_primitive` returns the original structure unchanged (no
error, not an empty structure) when the oracle's primitive-cell search
reports count 0; and for a count `k > 0` (with species indices in the
1-based range of the unique-species list, per the oracle contract) it
returns a new structure with exactly `k` sites whose species are recovered
through the 1-based indices. -/
theorem find_primitive_count (orig : PyStructure) (us : List ℕ)
    (o : PrimitiveSearchResult)
    (hn : o.count ≤ o.numbers.length) (hp : o.count ≤ o.positions.length)
    (hin : ∀ i ∈ o.numbers.take o.count, 1 ≤ i ∧ i ≤ us.length) :
    (o.count = 0 → find_primitive orig us o = some orig)
    ∧ (0 < o.count → ∃ s, find_primitive orig us o = some s
        ∧ s.latt = o.latt.transpose
        ∧ s.sites.length = o.count
        ∧ ∀ k i, (o.numbers.take o.count).get? k = some i →
            (s.sites.get? k).map Prod.fst = us.get? (i - 1)) := by
  have hf : ∀ i ∈ o.numbers.take o.count,
      (pyListGet us ((i : ℤ) - 1)).isSome := by
    intro i hi
    obtain ⟨h1, h2⟩ := hin i hi
    have hnonneg : (0 : ℤ) ≤ (i : ℤ) - 1 := by omega
    have htn : ((i : ℤ) - 1).toNat = i - 1 := by omega
    have hlt : i - 1 < us.length := by omega
    simp only [pyListGet, if_pos hnonneg, htn]
    rw [List.get?_eq_get hlt]
    simp
  obtain ⟨species, hspecies, hslen, hsget⟩ :=
    optTraverse_eq_some (fun i : ℕ => pyListGet us ((i : ℤ) - 1))
      (o.numbers.take o.count) hf
  have hzslen : (o.numbers.take o.count).length = o.count := by
    simp [List.length_take, Nat.min_eq_left hn]
  constructor
  · intro h0
    simp only [find_primitive, h0, List.take_zero]
    rfl
  · intro hpos
    refine ⟨⟨o.latt.transpose, species.zip (o.positions.take o.count)⟩, ?_, rfl, ?_, ?_⟩
    · simp only [find_primitive, hspecies, if_pos hpos]
    · simp [List.length_take, hslen, hzslen, Nat.min_eq_left hp]
    · intro k i hk
      have hkmap : ((species.zip (o.positions.take o.count)).map Prod.fst).get? k
          = species.get? k := by
        rw [List.map_fst_zip]
        rw [hslen, hzslen]
        simp [List.length_take, Nat.min_eq_left hp]
      have : ((species.zip (o.positions.take o.count)).get? k).map Prod.fst
          = ((species.zip (o.positions.take o.count)).map Prod.fst).get? k := by
        rw [List.get?_map]
      rw [this, hkmap, hsget k i hk]
      obtain ⟨h1, h2⟩ := hin i (by
        have := List.get?_mem hk
        exact this)
      have hnonneg : (0 : ℤ) ≤ (i : ℤ) - 1 := by omega
      have htn : ((i : ℤ) - 1).toNat = i - 1 := by omega
      simp only [pyListGet, if_pos hnonneg, htn]

theorem find_primitive_count_witness :
    ((1 : ℕ) ≤ ([2] : List ℕ).length) ∧ (∀ i ∈ ([2] : List ℕ).take 1, 1 ≤ i ∧ i ≤ ([5, 7] : List ℕ).length)
    ∧ ∃ s, find_primitive ⟨1, []⟩ [5, 7] ⟨1, 1, [![0, 0, 0]], [2]⟩ = some s
        ∧ s.latt = (1 : Mat3).transpose
        ∧ s.sites.length = 1
        ∧ ∀ k i, (([2] : List ℕ).take 1).get? k = some i →
            (s.sites.get? k).map Prod.fst = ([5, 7] : List ℕ).get? (i - 1) :=
  ⟨by decide, by decide,
    (find_primitive_count ⟨1, []⟩ [5, 7] ⟨1, 1, [![0, 0, 0]], [2]⟩
      (by decide) (by decide) (by decide)).2 (by decide)⟩

/-! ## Theorems for claim C7 -/

/-- C7 counterexample: the claim fails on the code.  The GeometryAdapter
conversion inside `SymmetryFinder.__init__` contains no validation at all:
on a structure with zero sites it completes successfully with empty
coordinate and species arrays instead of failing with
`InvalidStructureError`. -/
theorem to_oracle_input_empty_ok :
    toOracleInput (1 : Mat3) ([] : List (ℕ × Vec3)) =
      Except.ok ⟨(1 : Mat3).transpose, [], [], []⟩ := rfl

/-! ## Theorems for claim C1 -/

/-- C1: the claim is right about the intent but the code fails.  For a
monoclinic refined cell in which no examined axis permutation yields a
first angle different from 90° — e.g. the orthogonal cell
`diag(2, 1, 3)`, whose rows are pairwise orthogonal so every candidate's
first angle is exactly 90° — the monoclinic branch raises instead of
returning an axis-aligned fallback cell: the C-centred path hits an
`UnboundLocalError` on `alpha` (finder.py line 642), and the non-C path
passes `new_matrix = None` to `Lattice` (line 705). -/
theorem monoclinic_degenerate_raises :
    monoclinicNewMatrix ![![2, 0, 0], ![0, 1, 0], ![0, 0, 3]] true
        = Except.error MonoExn.unboundLocalAlpha
    ∧ monoclinicNewMatrix ![![2, 0, 0], ![0, 1, 0], ![0, 0, 3]] false
        = Except.error MonoExn.latticeOfNone := by
  with_unfolding_all decide

/-! ## Theorems for claim C3 -/

/-- C3: `get_primitive_standard_structure` returns the conventional
standard structure unchanged whenever `"P"` occurs in the space-group
symbol or the lattice type is hexagonal; otherwise, for a non-rhombohedral
lattice, the returned structure's lattice matrix is `T * M_conv` with `T`
the centering transform selected by the symbol: `iMat` for "I", `fMat` for
"F" (no "I"), `cMonoMat` for "C" (no "I"/"F") with monoclinic crystal
system and `cOtherMat` for "C" otherwise. -/
theorem primitive_standard_transform (symbol : List Char) (latticeType : String)
    (cs : Option String) (conv rh : PyStructure) :
    ((symbol.contains 'P' = true ∨ latticeType = "hexagonal") →
      get_primitive_standard_structure symbol latticeType cs conv rh = conv)
    ∧ (symbol.contains 'P' = false → latticeType ≠ "hexagonal" →
        latticeType ≠ "rhombohedral" →
        ((symbol.contains 'I' = true →
            (get_primitive_standard_structure symbol latticeType cs conv rh).latt
              = iMat * conv.latt)
          ∧ (symbol.contains 'I' = false → symbol.contains 'F' = true →
            (get_primitive_standard_structure symbol latticeType cs conv rh).latt
              = fMat * conv.latt)
          ∧ (symbol.contains 'I' = false → symbol.contains 'F' = false →
            symbol.contains 'C' = true → cs = some "monoclinic" →
            (get_primitive_standard_structure symbol latticeType cs conv rh).latt
              = cMonoMat * conv.latt)
          ∧ (symbol.contains 'I' = false → symbol.contains 'F' = false →
            symbol.contains 'C' = true → cs ≠ some "monoclinic" →
            (get_primitive_standard_structure symbol latticeType cs conv rh).latt
              = cOtherMat * conv.latt))) := by
  constructor
  · intro h
    unfold get_primitive_standard_structure
    rw [if_pos h]
  · intro hP hhex hrh
    have hc1 : ¬ (symbol.contains 'P' = true ∨ latticeType = "hexagonal") := by
      rintro (h | h)
      · rw [hP] at h; exact Bool.false_ne_true h
      · exact hhex h
    refine ⟨?_, ?_, ?_, ?_⟩
    · intro hI
      simp only [get_primitive_standard_structure, if_neg hc1, if_neg hrh, hI,
        if_true]
    · intro hI hF
      simp only [get_primitive_standard_structure, if_neg hc1, if_neg hrh, hI,
        hF, Bool.false_eq_true, if_false, if_true]
    · intro hI hF hC hcs
      simp only [get_primitive_standard_structure, if_neg hc1, if_neg hrh, hI,
        hF, hC, hcs, Bool.false_eq_true, if_false, if_true, if_pos rfl]
    · intro hI hF hC hcs
      simp only [get_primitive_standard_structure, if_neg hc1, if_neg hrh, hI,
        hF, hC, Bool.false_eq_true, if_false, if_true, if_neg hcs]

theorem primitive_standard_transform_witness :
    ((['P', '2'].contains 'P' = true ∨ "monoclinic" = "hexagonal")
      ∧ get_primitive_standard_structure ['P', '2'] "monoclinic" none
          ⟨1, [(0, ![0, 0, 0])]⟩ ⟨1, []⟩ = ⟨1, [(0, ![0, 0, 0])]⟩)
    ∧ (['I', '4'].contains 'P' = false ∧ "tetragonal" ≠ "hexagonal"
      ∧ "tetragonal" ≠ "rhombohedral" ∧ ['I', '4'].contains 'I' = true
      ∧ (get_primitive_standard_structure ['I', '4'] "tetragonal"
            (some "tetragonal") ⟨1, [(0, ![0, 0, 0])]⟩ ⟨1, []⟩).latt
          = iMat * (⟨1, [(0, ![0, 0, 0])]⟩ : PyStructure).latt) :=
  ⟨⟨Or.inl (by decide),
      (primitive_standard_transform ['P', '2'] "monoclinic" none
        ⟨1, [(0, ![0, 0, 0])]⟩ ⟨1, []⟩).1 (Or.inl (by decide))⟩,
    by decide, by decide, by decide, by decide,
    ((primitive_standard_transform ['I', '4'] "tetragonal" (some "tetragonal")
        ⟨1, [(0, ![0, 0, 0])]⟩ ⟨1, []⟩).2 (by decide) (by decide) (by decide)).1
      (by decide)⟩

/-! ## Theorems for claim C4 -/

/-- C4 counterexample: the claim fails on the code.  No branch of
`get_conventional_standard_structure` performs a periodic-image
deduplication (the pairwise `is_periodic_image` check exists only in
`get_primitive_standard_structure`): feeding the orthorhombic finishing
step two sites that are periodic images of each other (fractional
coordinates `(0,0,0)` and `(1,0,0)`, same species, identity transform)
yields an output that still has both sites — two sites that are periodic
images of one another. -/
theorem conv_finish_keeps_periodic_images :
    (convFinish 1 [(0, ![0, 0, 0]), (0, ![1, 0, 0])]).length = 2
    ∧ isPeriodicImage
        ((convFinish 1 [(0, ![0, 0, 0]), (0, ![1, 0, 0])]).getD 0 (0, ![0, 0, 0]))
        ((convFinish 1 [(0, ![0, 0, 0]), (0, ![1, 0, 0])]).getD 1 (0, ![0, 0, 0])) := by
  with_unfolding_all decide

/-- C4 amended: every branch of `get_conventional_standard_structure` maps
each refined-cell site through the branch transformation and keeps *all*
mapped sites — no periodic-image deduplication is performed, so the output
site count always equals the input site count — and the final site list is
a canonically sorted permutation of the mapped sites
(`get_sorted_structure`, modelled from the spec as species-then-position
order). -/
theorem conv_finish_sorted_perm (transf : Mat3) (sites : List (ℕ × Vec3)) :
    (convFinish transf sites).Perm (sites.map (orthoSiteMap transf))
    ∧ List.Sorted siteLeProp (convFinish transf sites)
    ∧ (convFinish transf sites).length = sites.length := by
  refine ⟨List.perm_insertionSort siteLeProp _, List.sorted_insertionSort siteLeProp _, ?_⟩
  show (sortSites (sites.map (orthoSiteMap transf))).length = sites.length
  rw [sortSites, (List.perm_insertionSort siteLeProp _).length_eq, List.length_map]

/-! ## Theorems for claim C6 -/

section SpeciesLemmas

variable {S : Type} [DecidableEq S]

theorem pyIndex_spec (u : List S) (s : S) :
    pyIndex u s = if s ∈ u then some (idxOf u s) else none := by
  induction u with
  | nil => simp [pyIndex]
  | cons x xs ih =>
    by_cases hx : x = s
    · subst hx
      simp [pyIndex, idxOf]
    · simp only [pyIndex, idxOf, if_neg hx, ih]
      by_cases hs : s ∈ xs
      · simp [hs, Ne.symm hx]
      · simp [hs, Ne.symm hx]

theorem idxOf_append_of_mem {u : List S} {s : S} (v : List S) (h : s ∈ u) :
    idxOf (u ++ v) s = idxOf u s := by
  induction u with
  | nil => simp at h
  | cons x xs ih =>
    by_cases hx : x = s
    · simp [idxOf, hx]
    · rcases List.mem_cons.mp h with h | h
      · exact absurd h.symm hx
      · simp [idxOf, hx, ih h]

theorem idxOf_append_not_mem {u : List S} {s : S} (v : List S) (h : s ∉ u) :
    idxOf (u ++ s :: v) s = u.length := by
  induction u with
  | nil => simp [idxOf]
  | cons x xs ih =>
    have hx : x ≠ s := fun hxs => h (hxs ▸ List.mem_cons_self x xs)
    have hs : s ∉ xs := fun hs => h (List.mem_cons_of_mem x hs)
    simp [idxOf, hx, ih hs]

theorem idxOf_inj {u : List S} {a b : S} (ha : a ∈ u) (hb : b ∈ u)
    (h : idxOf u a = idxOf u b) : a = b := by
  induction u with
  | nil => simp at ha
  | cons x xs ih =>
    by_cases hxa : x = a
    · by_cases hxb : x = b
      · exact hxa ▸ hxb
      · simp only [idxOf, if_pos hxa, if_neg hxb] at h
        omega
    · by_cases hxb : x = b
      · simp only [idxOf, if_neg hxa, if_pos hxb] at h
        omega
      · simp only [idxOf, if_neg hxa, if_neg hxb, Nat.add_right_cancel_iff] at h
        rcases List.mem_cons.mp ha with h1 | h1
        · exact absurd h1.symm hxa
        · rcases List.mem_cons.mp hb with h2 | h2
          · exact absurd h2.symm hxb
          · exact ih h1 h2 h

theorem mem_insertNew_self (u : List S) (s : S) : s ∈ insertNew u s := by
  unfold insertNew
  by_cases h : s ∈ u
  · rw [if_pos h]; exact h
  · rw [if_neg h]; exact List.mem_append_right u (List.mem_singleton_self s)

theorem mem_insertNew_of_mem {u : List S} {a : S} (s : S) (h : a ∈ u) :
    a ∈ insertNew u s := by
  unfold insertNew
  by_cases hs : s ∈ u
  · rw [if_pos hs]; exact h
  · rw [if_neg hs]; exact List.mem_append_left _ h

theorem insertNew_idem (u : List S) (s : S) :
    insertNew (insertNew u s) s = insertNew u s := by
  unfold insertNew
  by_cases h : s ∈ u
  · simp [h]
  · simp [h]

theorem foldl_insertNew_key_ext {β : Type} (key : β → S) (l : List β) :
    ∀ u : List S, ∃ ext, l.foldl (fun u y => insertNew u (key y)) u = u ++ ext := by
  induction l with
  | nil => exact fun u => ⟨[], by simp⟩
  | cons y l ih =>
    intro u
    obtain ⟨ext, hext⟩ := ih (insertNew u (key y))
    simp only [List.foldl_cons]
    by_cases h : key y ∈ u
    · refine ⟨ext, ?_⟩
      rw [hext]
      unfold insertNew
      rw [if_pos h]
    · refine ⟨key y :: ext, ?_⟩
      rw [hext]
      unfold insertNew
      rw [if_neg h, List.append_assoc, List.singleton_append]

theorem foldl_insertNew_replicate (s : S) :
    ∀ (n : ℕ) (u : List S), 0 < n →
      (List.replicate n s).foldl insertNew u = insertNew u s := by
  intro n
  induction n with
  | zero => intro u h; omega
  | succ m ih =>
    intro u _
    cases m with
    | zero => rfl
    | succ k =>
      have : List.replicate (k + 2) s = s :: List.replicate (k + 1) s := rfl
      rw [this, List.foldl_cons, ih (insertNew u s) (by omega), insertNew_idem]

theorem foldl_insertNew_flattenRuns (rs : List (S × ℕ)) :
    ∀ u : List S, (∀ r ∈ rs, 0 < r.2) →
      (flattenRuns rs).foldl insertNew u
        = rs.foldl (fun u r => insertNew u r.1) u := by
  induction rs with
  | nil => intro u _; rfl
  | cons r rest ih =>
    intro u hpos
    show (List.replicate r.2 r.1 ++ flattenRuns rest).foldl insertNew u = _
    rw [List.foldl_append,
      foldl_insertNew_replicate r.1 r.2 u (hpos r (List.mem_cons_self r rest)),
      ih (insertNew u r.1) (fun x hx => hpos x (List.mem_cons_of_mem r hx))]
    rfl

theorem runsAux_pos (l : List S) :
    ∀ (k : S) (n : ℕ), 0 < n → ∀ r ∈ runsAux k n l, 0 < r.2 := by
  induction l with
  | nil =>
    intro k n hn r hr
    simp only [runsAux, List.mem_singleton] at hr
    subst hr
    exact hn
  | cons s rest ih =>
    intro k n hn r hr
    simp only [runsAux] at hr
    by_cases hs : s = k
    · rw [if_pos hs] at hr
      exact ih k (n + 1) (by omega) r hr
    · rw [if_neg hs] at hr
      rcases List.mem_cons.mp hr with h | h
      · subst h; exact hn
      · exact ih s 1 (by omega) r h

theorem groupbyRuns_pos (l : List S) : ∀ r ∈ groupbyRuns l, 0 < r.2 := by
  cases l with
  | nil => intro r hr; simp [groupbyRuns] at hr
  | cons s rest => exact runsAux_pos rest s 1 (by omega)

theorem flattenRuns_runsAux (l : List S) :
    ∀ (k : S) (n : ℕ), flattenRuns (runsAux k n l) = List.replicate n k ++ l := by
  induction l with
  | nil =>
    intro k n
    simp [runsAux, flattenRuns]
  | cons s rest ih =>
    intro k n
    by_cases hs : s = k
    · subst hs
      show flattenRuns (if s = s then runsAux s (n + 1) rest else _) = _
      rw [if_pos rfl, ih s (n + 1), List.replicate_succ']
      simp
    · show flattenRuns (if s = k then _ else (k, n) :: runsAux s 1 rest) = _
      rw [if_neg hs]
      show List.replicate n k ++ flattenRuns (runsAux s 1 rest) = _
      rw [ih s 1]
      simp [List.replicate_succ]

theorem flattenRuns_groupbyRuns (l : List S) : flattenRuns (groupbyRuns l) = l := by
  cases l with
  | nil => rfl
  | cons s rest =>
    show flattenRuns (runsAux s 1 rest) = _
    rw [flattenRuns_runsAux rest s 1]
    simp [List.replicate_succ]

omit [DecidableEq S] in
theorem flattenRuns_cons (r : S × ℕ) (rs : List (S × ℕ)) :
    flattenRuns (r :: rs) = List.replicate r.2 r.1 ++ flattenRuns rs := rfl

theorem speciesAssignAux_spec (runs : List (S × ℕ)) :
    ∀ (uniq : List S) (zs : List ℕ),
      (speciesAssignAux runs uniq zs).1
          = runs.foldl (fun u r => insertNew u r.1) uniq
      ∧ (speciesAssignAux runs uniq zs).2
          = zs ++ (flattenRuns runs).map
              (fun s => idxOf (speciesAssignAux runs uniq zs).1 s + 1) := by
  induction runs with
  | nil =>
    intro uniq zs
    exact ⟨rfl, by simp [flattenRuns, speciesAssignAux]⟩
  | cons r rest ih =>
    intro uniq zs
    obtain ⟨sp, cnt⟩ := r
    by_cases hmem : sp ∈ uniq
    · have hpy : pyIndex uniq sp = some (idxOf uniq sp) := by
        rw [pyIndex_spec, if_pos hmem]
      have hstep : speciesAssignAux ((sp, cnt) :: rest) uniq zs
          = speciesAssignAux rest uniq
              (zs ++ List.replicate cnt (idxOf uniq sp + 1)) := by
        show (match pyIndex uniq sp with
          | some ind => speciesAssignAux rest uniq (zs ++ List.replicate cnt (ind + 1))
          | none => speciesAssignAux rest (uniq ++ [sp])
              (zs ++ List.replicate cnt (uniq.length + 1))) = _
        rw [hpy]
      obtain ⟨ih1, ih2⟩ := ih uniq (zs ++ List.replicate cnt (idxOf uniq sp + 1))
      have hfold : ((sp, cnt) :: rest).foldl (fun u r => insertNew u r.1) uniq
          = rest.foldl (fun u r => insertNew u r.1) uniq := by
        simp only [List.foldl_cons]
        unfold insertNew
        rw [if_pos hmem]
      obtain ⟨ext, hext⟩ := foldl_insertNew_key_ext (Prod.fst (β := ℕ)) rest uniq
      have hidx : idxOf (speciesAssignAux rest uniq
            (zs ++ List.replicate cnt (idxOf uniq sp + 1))).1 sp
          = idxOf uniq sp := by
        rw [ih1, hext]
        exact idxOf_append_of_mem ext hmem
      refine ⟨by rw [hstep, ih1, hfold], ?_⟩
      rw [hstep, ih2, flattenRuns_cons, List.map_append, List.map_replicate,
        hidx, List.append_assoc]
    · have hpy : pyIndex uniq sp = none := by
        rw [pyIndex_spec, if_neg hmem]
      have hstep : speciesAssignAux ((sp, cnt) :: rest) uniq zs
          = speciesAssignAux rest (uniq ++ [sp])
              (zs ++ List.replicate cnt (uniq.length + 1)) := by
        show (match pyIndex uniq sp with
          | some ind => speciesAssignAux rest uniq (zs ++ List.replicate cnt (ind + 1))
          | none => speciesAssignAux rest (uniq ++ [sp])
              (zs ++ List.replicate cnt (uniq.length + 1))) = _
        rw [hpy]
      obtain ⟨ih1, ih2⟩ := ih (uniq ++ [sp])
        (zs ++ List.replicate cnt (uniq.length + 1))
      have hfold : ((sp, cnt) :: rest).foldl (fun u r => insertNew u r.1) uniq
          = rest.foldl (fun u r => insertNew u r.1) (uniq ++ [sp]) := by
        simp only [List.foldl_cons]
        unfold insertNew
        rw [if_neg hmem]
      obtain ⟨ext, hext⟩ := foldl_insertNew_key_ext (Prod.fst (β := ℕ)) rest (uniq ++ [sp])
      have hidx : idxOf (speciesAssignAux rest (uniq ++ [sp])
            (zs ++ List.replicate cnt (uniq.length + 1))).1 sp
          = uniq.length := by
        rw [ih1, hext, List.append_assoc, List.singleton_append]
        exact idxOf_append_not_mem ext hmem
      refine ⟨by rw [hstep, ih1, hfold], ?_⟩
      rw [hstep, ih2, flattenRuns_cons, List.map_append, List.map_replicate,
        hidx, List.append_assoc]

theorem toOracleSpecies_uniq (l : List S) :
    (toOracleSpecies l).1 = firstOccurrences l := by
  have h1 := (speciesAssignAux_spec (groupbyRuns l) [] []).1
  rw [toOracleSpecies, h1, firstOccurrences,
    ← foldl_insertNew_flattenRuns (groupbyRuns l) [] (groupbyRuns_pos l),
    flattenRuns_groupbyRuns]

theorem toOracleSpecies_zs (l : List S) :
    (toOracleSpecies l).2 = l.map (fun s => idxOf (firstOccurrences l) s + 1) := by
  have h2 := (speciesAssignAux_spec (groupbyRuns l) [] []).2
  rw [toOracleSpecies, h2, flattenRuns_groupbyRuns]
  simp only [List.nil_append]
  have : (speciesAssignAux (groupbyRuns l) [] []).1 = firstOccurrences l :=
    toOracleSpecies_uniq l
  rw [this]

theorem mem_foldl_insertNew (l : List S) :
    ∀ (u : List S) (a : S), a ∈ l ∨ a ∈ u → a ∈ l.foldl insertNew u := by
  induction l with
  | nil =>
    intro u a h
    rcases h with h | h
    · simp at h
    · exact h
  | cons x xs ih =>
    intro u a h
    simp only [List.foldl_cons]
    rcases h with h | h
    · rcases List.mem_cons.mp h with h | h
      · exact ih (insertNew u x) a (Or.inr (h ▸ mem_insertNew_self u x))
      · exact ih (insertNew u x) a (Or.inl h)
    · exact ih (insertNew u x) a (Or.inr (mem_insertNew_of_mem x h))

theorem mem_firstOccurrences {l : List S} {a : S} (h : a ∈ l) :
    a ∈ firstOccurrences l :=
  mem_foldl_insertNew l [] a (Or.inl h)

end SpeciesLemmas

/-- C6: at session construction, the species-index array assigns to every
atom `1 +` the position of the first occurrence of its
species-and-occupancy group in scan order (deduplication by equality
against previously seen groups, not a sort); the unique-species list is
exactly the distinct groups in first-occurrence order; and two atoms get
the same index iff their groups are equal. -/
theorem species_index_first_occurrence {S : Type} [DecidableEq S] (sites : List S) :
    (toOracleSpecies sites).1 = firstOccurrences sites
    ∧ (toOracleSpecies sites).2
        = sites.map (fun s => idxOf (firstOccurrences sites) s + 1)
    ∧ ∀ i j, i < sites.length → j < sites.length →
        ((toOracleSpecies sites).2.get? i = (toOracleSpecies sites).2.get? j
          ↔ sites.get? i = sites.get? j) := by
  refine ⟨toOracleSpecies_uniq sites, toOracleSpecies_zs sites, ?_⟩
  intro i j hi hj
  have ha : sites.get? i = some (sites.get ⟨i, hi⟩) := List.get?_eq_get hi
  have hb : sites.get? j = some (sites.get ⟨j, hj⟩) := List.get?_eq_get hj
  have hma : sites.get ⟨i, hi⟩ ∈ sites := List.get_mem sites i hi
  have hmb : sites.get ⟨j, hj⟩ ∈ sites := List.get_mem sites j hj
  rw [toOracleSpecies_zs sites, List.get?_map, List.get?_map, ha, hb]
  simp only [Option.map_some', Option.some.injEq]
  constructor
  · intro h
    exact idxOf_inj (mem_firstOccurrences hma) (mem_firstOccurrences hmb) (by omega)
  · intro h
    rw [h]

theorem species_index_first_occurrence_witness :
    0 < ([10, 20, 10] : List ℕ).length ∧ 2 < ([10, 20, 10] : List ℕ).length
    ∧ ((toOracleSpecies ([10, 20, 10] : List ℕ)).2.get? 0
          = (toOracleSpecies ([10, 20, 10] : List ℕ)).2.get? 2
        ↔ ([10, 20, 10] : List ℕ).get? 0 = ([10, 20, 10] : List ℕ).get? 2) :=
  ⟨by decide, by decide,
    (species_index_first_occurrence ([10, 20, 10] : List ℕ)).2.2 0 2
      (by decide) (by decide)⟩

/-- C7 amended: the conversion performs no zero-site validation; on any
zero-site structure it returns successfully, producing empty coordinate
and species arrays (a failure could only arise later, inside the external
oracle call). -/
theorem to_oracle_input_zero_sites_succeeds (latt : Mat3) :
    toOracleInput latt ([] : List (ℕ × Vec3)) =
      Except.ok ⟨latt.transpose, [], [], []⟩ := rfl

end Finder
